import Mathlib

/-!
Verification development for the architech-visual-forge client core:
the canvas graph store (zustand store in `useArchitectStore`), the mock
simulation engine (`useSimulationEngine`), the design serializer
(`serializeDesign` / `deserializeDesign` / `validateDesignData`) and the
layout engine (`autoLayoutNodes`).

The TypeScript code is embedded shallowly: JS records become Lean
structures, JS numbers become rationals, `Math.random()` draws become an
explicit random source `f : Nat -> Rat` consumed at an explicit counter,
and `Date.now()` / `new Date().toISOString()` become explicit parameters.
Record-typed JS objects used as string-keyed maps become association
lists with JS object-update semantics (`recordSet`).
-/

set_option autoImplicit false

/-- A JS scalar value as stored in a component property
(`value: string | number | boolean`). -/
inductive PVal where
  | str (v : String)
  | num (v : ℚ)
  | bool (v : Bool)
deriving DecidableEq, Repr

/-- JS truthiness of a property scalar: empty string, 0 and false are falsy. -/
def pvalTruthy : PVal → Bool
  | PVal.str v => !(v = "")
  | PVal.num v => !(v = 0)
  | PVal.bool v => v

/-- JS template-literal rendering of a property scalar. -/
def pvalToString : PVal → String
  | PVal.str v => v
  | PVal.num v => toString v
  | PVal.bool v => toString v

/-- JS `a || b` for an optional string: undefined and empty string fall back. -/
def jsOrS : Option String → String → String
  | some s, d => if s = "" then d else s
  | none, d => d

/-- JS `a || b` for an optional number: undefined and 0 fall back. -/
def jsOrQ : Option ℚ → ℚ → ℚ
  | some q, d => if q = 0 then d else q
  | none, d => d

/-- JS object update `{ ...r, [k]: v }` on a string-keyed record: an existing
key keeps its position and gets the new value, a new key is appended. -/
def recordSet {α : Type} (r : List (String × α)) (k : String) (v : α) :
    List (String × α) :=
  if r.any (fun p => p.1 = k) then
    r.map (fun p => if p.1 = k then (k, v) else p)
  else r ++ [(k, v)]

/-- Lookup in a string-keyed record (first occurrence). -/
def recordGet {α : Type} (r : List (String × α)) (k : String) : Option α :=
  (r.find? (fun p => p.1 = k)).map (fun p => p.2)

/-- `ComponentProperty` from `useArchitectStore`: one typed, editable
property of a diagram node. -/
structure ComponentProperty where
  id : String
  name : String
  ptype : String
  value : PVal
  options : Option (List String) := none
  minB : Option ℚ := none
  maxB : Option ℚ := none
  step : Option ℚ := none
deriving DecidableEq, Repr

/-- The `data` record of an xyflow node as the store uses it. Keys the code
reads by name are explicit fields (absent key = `none`); any other keys are
carried in `extra` (these never collide with the named keys by construction).
`properties` is `none` when the key is absent from the JS record. -/
structure NodeData where
  label : Option String := none
  name : Option String := none
  description : Option String := none
  status : Option String := none
  properties : Option (List ComponentProperty) := none
  extra : List (String × PVal) := []
deriving DecidableEq, Repr

/-- An xyflow `Node` as the store holds it. -/
structure CanvasNode where
  id : String
  type : Option String := none
  position : ℚ × ℚ
  data : NodeData := {}
  style : Option String := none
  className : Option String := none
  hidden : Bool := false
  selected : Bool := false
  dragging : Bool := false
deriving DecidableEq, Repr

/-- The `data` record of an xyflow edge. Named fields are the ones the code
reads or writes; other keys are carried in `extra`. -/
structure EdgeData where
  name : Option String := none
  description : Option String := none
  protocol : Option String := none
  status : Option String := none
  latency : Option ℚ := none
  bandwidth : Option ℚ := none
  errorRate : Option ℚ := none
  throughput : Option ℚ := none
  extra : List (String × PVal) := []
deriving DecidableEq, Repr

/-- An xyflow `Edge` as the store holds it; `data` is `none` when the edge
carries no data record at all. -/
structure CanvasEdge where
  id : String
  source : String
  target : String
  sourceHandle : Option String := none
  targetHandle : Option String := none
  type : Option String := none
  animated : Bool := false
  hidden : Bool := false
  selected : Bool := false
  data : Option EdgeData := none
  style : Option String := none
  className : Option String := none
  markerStart : Option String := none
  markerEnd : Option String := none
deriving DecidableEq, Repr

/-- Node status drawn by the simulation (`idle | active | warning | error`). -/
inductive StatusKind where
  | idle
  | active
  | warning
  | error
deriving DecidableEq, Repr

/-- The status string as it appears in JS. -/
def StatusKind.toStr : StatusKind → String
  | StatusKind.idle => "idle"
  | StatusKind.active => "active"
  | StatusKind.warning => "warning"
  | StatusKind.error => "error"

/-- Log level of a node-status log entry (`info | warn | error`). -/
inductive LogLevel where
  | info
  | warn
  | error
deriving DecidableEq, Repr

/-- One entry of `NodeStatus.logs`. -/
structure LogEntry where
  timestamp : ℤ
  level : LogLevel
  message : String
deriving DecidableEq, Repr

/-- The per-node metrics record written by the simulation engine. -/
structure Metrics where
  cpu : ℚ
  memory : ℚ
  requests : ℚ
  latency : ℚ
deriving DecidableEq, Repr

/-- `NodeStatus` from `useArchitectStore`: simulation-visible status of one
node, held apart from the node itself in `nodeStatuses`. -/
structure NodeStatus where
  status : StatusKind
  metrics : Option Metrics := none
  logs : Option (List LogEntry) := none
deriving DecidableEq, Repr

/-- Simulation event type (`info | warning | error | success`). -/
inductive EventType where
  | info
  | warning
  | error
  | success
deriving DecidableEq, Repr

/-- `SimulationEvent` from `useArchitectStore`. -/
structure SimulationEvent where
  id : String
  time : ℚ
  etype : EventType
  componentId : Option String := none
  message : String
deriving DecidableEq, Repr

/-- `SimulationState` from `useArchitectStore` (snapshots omitted: no claim
touches them and no modelled operation reads or writes them). -/
structure SimulationState where
  isRunning : Bool
  currentTime : ℚ
  speed : ℚ
  progress : ℚ
  duration : ℚ
  events : List SimulationEvent
deriving DecidableEq, Repr

/-- The store state of `useArchitectStore` (canvas and simulation slices;
project and UI slices are untouched by every modelled operation). -/
structure ArchitectState where
  nodes : List CanvasNode
  edges : List CanvasEdge
  selectedNodeId : Option String := none
  selectedEdgeId : Option String := none
  nodeStatuses : List (String × NodeStatus) := []
  simulation : SimulationState
deriving DecidableEq, Repr

/-- An xyflow `Connection` passed to `onConnect` (`source!` / `target!` are
non-null asserted in the code, so they are plain strings here). -/
structure Connection where
  source : String
  target : String
  sourceHandle : Option String := none
  targetHandle : Option String := none
deriving DecidableEq, Repr

/-- Store action `onConnect`: builds a new edge
`{id: edge-<Date.now()>, source, target, sourceHandle, targetHandle,
type: architech, animated: false}` (note: no `data` record) and appends it
to `edges`. `now` stands for `Date.now()`. -/
def onConnect (now : ℤ) (c : Connection) (st : ArchitectState) : ArchitectState :=
  let newEdge : CanvasEdge :=
    { id := "edge-" ++ toString now
      source := c.source
      target := c.target
      sourceHandle := c.sourceHandle
      targetHandle := c.targetHandle
      type := some "architech"
      animated := false }
  { st with edges := st.edges ++ [newEdge] }

/-- A node change object from the rendering library, as `onNodesChange`
inspects it: an optional `id` (the code checks `id in c`) and the fields a
spread `{ ...node, ...change }` would overwrite. -/
structure NodeChange where
  id : Option String := none
  ctype : Option String := none
  position : Option (ℚ × ℚ) := none
  selected : Option Bool := none
  dragging : Option Bool := none
deriving DecidableEq, Repr

/-- JS spread merge `{ ...node, ...change }` for a node change. -/
def applyNodeChange (c : NodeChange) (n : CanvasNode) : CanvasNode :=
  { n with
    id := c.id.getD n.id
    type := match c.ctype with | some t => some t | none => n.type
    position := c.position.getD n.position
    selected := c.selected.getD n.selected
    dragging := c.dragging.getD n.dragging }

/-- Store action `onNodesChange`: merges into each node the first change
object carrying that node id; nodes without a matching change pass through. -/
def onNodesChange (changes : List NodeChange) (st : ArchitectState) : ArchitectState :=
  { st with
    nodes := st.nodes.map (fun node =>
      match changes.find? (fun c => c.id = some node.id) with
      | some c => applyNodeChange c node
      | none => node) }

/-- An edge change object from the rendering library, as `onEdgesChange`
inspects it. -/
structure EdgeChange where
  id : Option String := none
  ctype : Option String := none
  selected : Option Bool := none
  animated : Option Bool := none
deriving DecidableEq, Repr

/-- JS spread merge `{ ...edge, ...change }` for an edge change. -/
def applyEdgeChange (c : EdgeChange) (e : CanvasEdge) : CanvasEdge :=
  { e with
    id := c.id.getD e.id
    type := match c.ctype with | some t => some t | none => e.type
    selected := c.selected.getD e.selected
    animated := c.animated.getD e.animated }

/-- Store action `onEdgesChange`: merges into each edge the first change
object carrying that edge id; edges without a matching change pass through. -/
def onEdgesChange (changes : List EdgeChange) (st : ArchitectState) : ArchitectState :=
  { st with
    edges := st.edges.map (fun edge =>
      match changes.find? (fun c => c.id = some edge.id) with
      | some c => applyEdgeChange c edge
      | none => edge) }

/-- Store action `updateNodeProperty`: in the node with the given id,
replace the `value` of the property with the given property id. The code
reads `(node.data?.properties as ComponentProperty[]) || []` and writes the
mapped array back, so a node whose data had no `properties` key gains an
empty one. -/
def updateNodeProperty (nodeId propertyId : String) (value : PVal)
    (st : ArchitectState) : ArchitectState :=
  { st with
    nodes := st.nodes.map (fun node =>
      if node.id = nodeId then
        let ps := node.data.properties.getD []
        let updated := ps.map (fun prop =>
          if prop.id = propertyId then { prop with value := value } else prop)
        { node with data := { node.data with properties := some updated } }
      else node) }

/-- Store action `updateNodeStatus`: JS record update
`{ ...state.nodeStatuses, [nodeId]: status }`. -/
def updateNodeStatus (nodeId : String) (status : NodeStatus)
    (st : ArchitectState) : ArchitectState :=
  { st with nodeStatuses := recordSet st.nodeStatuses nodeId status }

/-- Store action `addSimulationEvent`: appends the event with generated id
`event-<Date.now()>`. -/
def addSimulationEvent (now : ℤ) (time : ℚ) (etype : EventType)
    (componentId : Option String) (message : String)
    (st : ArchitectState) : ArchitectState :=
  { st with
    simulation :=
      { st.simulation with
        events := st.simulation.events ++
          [{ id := "event-" ++ toString now
             time := time
             etype := etype
             componentId := componentId
             message := message }] } }

/-- Store action `setSimulationTime`. -/
def setSimulationTime (time : ℚ) (st : ArchitectState) : ArchitectState :=
  { st with simulation := { st.simulation with currentTime := time } }

/-- Grid position of the node at list index `index` in `autoLayoutNodes`:
4 columns, row-major, 250 by 150 cell pitch, origin offset (50, 50). -/
def gridPosition (index : ℕ) : ℚ × ℚ :=
  ((index % 4 : ℕ) * 250 + 50, (index / 4 : ℕ) * 150 + 50)

/-- Worker for `autoLayoutNodes`: `nodes.map((node, index) => ...)`. -/
def autoLayoutGo (index : ℕ) : List CanvasNode → List CanvasNode
  | [] => []
  | n :: ns => { n with position := gridPosition index } :: autoLayoutGo (index + 1) ns

/-- Store action `autoLayoutNodes`: arranges all nodes into a 4-column
row-major grid; returns immediately when the node list is empty. -/
def autoLayoutNodes (nodes : List CanvasNode) : List CanvasNode :=
  if nodes.length = 0 then nodes else autoLayoutGo 0 nodes

/-- Status thresholds of the node phase in `useSimulationEngine`:
`rand < 0.6` active, `< 0.85` idle, `< 0.95` warning, else error. -/
def nodeStatusOfRand (r : ℚ) : StatusKind :=
  if r < 0.6 then StatusKind.active
  else if r < 0.85 then StatusKind.idle
  else if r < 0.95 then StatusKind.warning
  else StatusKind.error

/-- Log level the engine attaches to a drawn status
(`error -> error, warning -> warn, else info`). -/
def logLevelOf (s : StatusKind) : LogLevel :=
  if s = StatusKind.error then LogLevel.error
  else if s = StatusKind.warning then LogLevel.warn
  else LogLevel.info

/-- Log message the engine writes:
`status.charAt(0).toUpperCase() + status.slice(1)` ++ " status detected". -/
def statusLogMessage (s : StatusKind) : String :=
  (match s with
   | StatusKind.idle => "Idle"
   | StatusKind.active => "Active"
   | StatusKind.warning => "Warning"
   | StatusKind.error => "Error") ++ " status detected"

/-- Display name used in an event message:
`Array.isArray(props) && props.find(p => p.id === "name")?.value || node.id`
(a falsy property value falls back to the node id as well). -/
def nodeDisplayName (node : CanvasNode) : String :=
  match node.data.properties with
  | some ps =>
    match ps.find? (fun p => p.id = "name") with
    | some p => if pvalTruthy p.value then pvalToString p.value else node.id
    | none => node.id
  | none => node.id

/-- Event message the engine writes for a warning/error node. -/
def nodeEventMessage (node : CanvasNode) (s : StatusKind) : String :=
  "Component " ++ nodeDisplayName node ++ " status: " ++ s.toStr

/-- The fresh `NodeStatus` the engine writes for one node on one tick:
a drawn status, four fresh metric draws, and a logs list holding exactly
one new entry (the previous logs are not read). `f` is the random source,
`k` the index of the status draw, `now` is `Date.now()`. -/
def tickNodeStatus (f : ℕ → ℚ) (k : ℕ) (now : ℤ) : NodeStatus :=
  let s := nodeStatusOfRand (f k)
  { status := s
    metrics := some
      { cpu := f (k + 1) * 100
        memory := f (k + 2) * 100
        requests := f (k + 3) * 1000
        latency := f (k + 4) * 500 }
    logs := some [{ timestamp := now, level := logLevelOf s, message := statusLogMessage s }] }

/-- One iteration of the engine node loop (`nodes.forEach`): write the fresh
status through `updateNodeStatus`, and when the drawn status is warning or
error append one `SimulationEvent` at simulated time `newTime` referencing
the node. Five random draws are consumed. -/
def simNodeStep (f : ℕ → ℚ) (now : ℤ) (newTime : ℚ)
    (acc : ArchitectState × ℕ) (node : CanvasNode) : ArchitectState × ℕ :=
  let k := acc.2
  let s := nodeStatusOfRand (f k)
  let st1 := updateNodeStatus node.id (tickNodeStatus f k now) acc.1
  let st2 :=
    if s = StatusKind.error ∨ s = StatusKind.warning then
      addSimulationEvent now newTime
        (if s = StatusKind.error then EventType.error else EventType.warning)
        (some node.id) (nodeEventMessage node s) st1
    else st1
  (st2, k + 5)

/-- Status thresholds of the edge phase: `rand < 0.7` active, `< 0.9` idle,
`< 0.98` success, else error. -/
def edgeStatusOfRand (r : ℚ) : String :=
  if r < 0.7 then "active"
  else if r < 0.9 then "idle"
  else if r < 0.98 then "success"
  else "error"

/-- One edge of the engine edge phase. The conditional expressions
`status === "active" ? Math.floor(Math.random()*1000) : 0` and
`status === "error" ? Math.floor(Math.random()*10) : 0` only consume a
random draw on their taken branch, so the counter advance depends on the
drawn status. `edge.data?.protocol || "HTTP"` keeps a truthy existing
protocol. -/
def simEdgeStep (f : ℕ → ℚ) (k : ℕ) (edge : CanvasEdge) : CanvasEdge × ℕ :=
  let s := edgeStatusOfRand (f k)
  let k1 := k + 1
  let throughput : ℚ := if s = "active" then ((⌊f k1 * 1000⌋ : ℤ) : ℚ) else 0
  let k2 := if s = "active" then k1 + 1 else k1
  let latency : ℚ := ((⌊f k2 * 100⌋ : ℤ) : ℚ)
  let k3 := k2 + 1
  let errorRate : ℚ := if s = "error" then ((⌊f k3 * 10⌋ : ℤ) : ℚ) else 0
  let k4 := if s = "error" then k3 + 1 else k3
  let old := edge.data.getD {}
  ({ edge with
     data := some
       { old with
         status := some s
         throughput := some throughput
         latency := some latency
         errorRate := some errorRate
         protocol := some (jsOrS old.protocol "HTTP") } }, k4)

/-- The engine edge phase: `setEdges(eds => eds.map(...))`, threading the
random counter left to right. -/
def simEdges (f : ℕ → ℚ) (k : ℕ) : List CanvasEdge → List CanvasEdge × ℕ
  | [] => ([], k)
  | e :: es =>
    let p := simEdgeStep f k e
    let rest := simEdges f p.2 es
    (p.1 :: rest.1, rest.2)

/-- One tick of `useSimulationEngine`: compute
`newTime = currentTime + speed`; when `newTime >= duration` return with no
state change at all; otherwise set the simulation time, run the node phase
over every node, then the edge phase over every edge. `f` is the random
source, `k` the counter of the next unconsumed draw, `now` is `Date.now()`. -/
def simulationTick (now : ℤ) (f : ℕ → ℚ) (st : ArchitectState) (k : ℕ) :
    ArchitectState × ℕ :=
  let newTime := st.simulation.currentTime + st.simulation.speed
  if st.simulation.duration ≤ newTime then (st, k)
  else
    let st1 := setSimulationTime newTime st
    let p := st1.nodes.foldl (simNodeStep f now newTime) (st1, k)
    let q := simEdges f p.2 p.1.edges
    ({ p.1 with edges := q.1 }, q.2)

/-- A serialized node `data` record as `serializeDesign` emits it:
`properties` reduced to a flat id-keyed record, `name`/`description`/`status`
pulled to top level, remaining keys passed through. -/
structure SerNodeData where
  name : String
  properties : List (String × PVal)
  description : String
  status : String
  extra : List (String × PVal) := []
deriving DecidableEq, Repr

/-- A node of the serialized design document. -/
structure SerNode where
  id : String
  type : String
  position : ℚ × ℚ
  data : SerNodeData
  style : Option String := none
  className : Option String := none
  hidden : Bool := false
  selected : Bool := false
  dragging : Bool := false
deriving DecidableEq, Repr

/-- An edge `data` record as `serializeDesign` emits it: defaults injected
for `name`, `protocol`, `latency`, `bandwidth`, `errorRate`, `description`. -/
structure SerEdgeData where
  name : String
  protocol : String
  latency : ℚ
  bandwidth : ℚ
  errorRate : ℚ
  description : String
  status : Option String := none
  throughput : Option ℚ := none
  extra : List (String × PVal) := []
deriving DecidableEq, Repr

/-- An edge of the serialized design document. -/
structure SerEdge where
  id : String
  source : String
  target : String
  sourceHandle : Option String := none
  targetHandle : Option String := none
  type : String
  data : SerEdgeData
  style : Option String := none
  className : Option String := none
  animated : Bool := false
  hidden : Bool := false
  markerStart : Option String := none
  markerEnd : Option String := none
  selected : Bool := false
deriving DecidableEq, Repr

/-- The canvas viewport. -/
structure Viewport where
  x : ℚ
  y : ℚ
  zoom : ℚ
deriving DecidableEq, Repr

/-- Document metadata emitted by `serializeDesign`. -/
structure DesignMetadata where
  created_at : String
  updated_at : String
  canvas_size : ℚ × ℚ
deriving DecidableEq, Repr

/-- The versioned design document (`SerializedDesign`). -/
structure SerializedDesign where
  version : String
  nodes : List SerNode
  edges : List SerEdge
  viewport : Viewport
  metadata : DesignMetadata
deriving DecidableEq, Repr

/-- The key under which `serializeDesign` stores a property value:
`prop.id || prop.name` (an empty id falls back to the name). -/
def propKey (p : ComponentProperty) : String :=
  if p.id = "" then p.name else p.id

/-- The flat property record built by the serializer reduce:
`properties.reduce((acc, prop) => { acc[prop.id || prop.name] = prop.value; ... }, {})`. -/
def flattenProperties (ps : List ComponentProperty) : List (String × PVal) :=
  ps.foldl (fun acc p => recordSet acc (propKey p) p.value) []

/-- Node serialization inside `serializeDesign`. The `name` fallback chain is
`node.data?.name || node.data?.label || ${node.type}_${node.id}` (an absent
`node.type` renders as the string undefined in the template literal). -/
def serializeNode (node : CanvasNode) : SerNode :=
  { id := node.id
    type := jsOrS node.type "default"
    position := node.position
    data :=
      { name := jsOrS node.data.name (jsOrS node.data.label
          ((match node.type with | some t => t | none => "undefined") ++ "_" ++ node.id))
        properties := match node.data.properties with
          | some ps => flattenProperties ps
          | none => []
        description := jsOrS node.data.description ""
        status := jsOrS node.data.status "idle"
        extra := node.data.extra }
    style := node.style
    className := node.className
    hidden := node.hidden
    selected := false
    dragging := false }

/-- Edge serialization inside `serializeDesign`. -/
def serializeEdge (edge : CanvasEdge) : SerEdge :=
  let old := edge.data.getD {}
  { id := edge.id
    source := edge.source
    target := edge.target
    sourceHandle := edge.sourceHandle
    targetHandle := edge.targetHandle
    type := jsOrS edge.type "default"
    data :=
      { name := jsOrS old.name (edge.source ++ "-to-" ++ edge.target)
        protocol := jsOrS old.protocol "HTTP"
        latency := jsOrQ old.latency 0
        bandwidth := jsOrQ old.bandwidth 1000
        errorRate := jsOrQ old.errorRate 0
        description := jsOrS old.description ""
        status := old.status
        throughput := old.throughput
        extra := old.extra }
    style := edge.style
    className := edge.className
    animated := edge.animated
    hidden := edge.hidden
    markerStart := edge.markerStart
    markerEnd := edge.markerEnd
    selected := false }

/-- `serializeDesign(nodes, edges, viewport)`: versioned document with
metadata timestamps (`nowIso` stands for `new Date().toISOString()`) and a
canvas size derived from the node bounding box floored at 1000 by 600. -/
def serializeDesign (nodes : List CanvasNode) (edges : List CanvasEdge)
    (viewport : Viewport) (nowIso : String) : SerializedDesign :=
  { version := "1.0.0"
    nodes := nodes.map serializeNode
    edges := edges.map serializeEdge
    viewport := viewport
    metadata :=
      { created_at := nowIso
        updated_at := nowIso
        canvas_size :=
          ((nodes.map (fun n => n.position.1 + 200)).foldl max 1000,
           (nodes.map (fun n => n.position.2 + 200)).foldl max 600) } }

/-- A JSON field that is expected to be an array: absent (undefined, falsy),
present but not an array, or an array. -/
inductive JField (α : Type) where
  | absent
  | notArr
  | arr (xs : List α)
deriving DecidableEq, Repr

/-- Input to `deserializeDesign`: falsy, a current-format document (truthy
`version` field), or a legacy object without a `version` field. -/
inductive DesignData where
  | null
  | current (d : SerializedDesign)
  | legacy (nodes : JField SerNode) (edges : JField SerEdge) (viewport : Option Viewport)
deriving DecidableEq, Repr

/-- Result of `deserializeDesign`. -/
structure DeserializedDesign where
  nodes : List SerNode
  edges : List SerEdge
  viewport : Viewport
deriving DecidableEq, Repr

/-- `deserializeDesign(designData)`: falsy input gives the empty graph; a
document with a `version` field passes nodes, edges and viewport through
unchanged; a legacy object keeps `nodes`/`edges` only when they are arrays
and defaults the viewport when absent. -/
def deserializeDesign : DesignData → DeserializedDesign
  | DesignData.null => { nodes := [], edges := [], viewport := ⟨0, 0, 1⟩ }
  | DesignData.current d => { nodes := d.nodes, edges := d.edges, viewport := d.viewport }
  | DesignData.legacy nf ef v =>
    { nodes := match nf with | JField.arr xs => xs | _ => []
      edges := match ef with | JField.arr xs => xs | _ => []
      viewport := v.getD ⟨0, 0, 1⟩ }

/-- A node as `validateDesignData` inspects it: an optional `id` string
(the check `!node.id` also fails an empty string) and an optional
`position` object (objects are always truthy). -/
structure ValNode where
  id : Option String := none
  position : Option (ℚ × ℚ) := none
deriving DecidableEq, Repr

/-- An edge as `validateDesignData` inspects it. -/
structure ValEdge where
  id : Option String := none
  source : Option String := none
  target : Option String := none
deriving DecidableEq, Repr

/-- Input to `validateDesignData`: falsy, or an object whose `nodes` and
`edges` fields may each be absent, non-array, or an array. -/
structure ValDoc where
  nodes : JField ValNode
  edges : JField ValEdge
deriving DecidableEq, Repr

/-- JS truthiness of an optional string field (`!node.id`). -/
def strPresent : Option String → Bool
  | some s => !(s = "")
  | none => false

/-- Per-node messages of `validateDesignData`, with the running index. -/
def nodeErrors (i : ℕ) : List ValNode → List String
  | [] => []
  | n :: ns =>
    ((if strPresent n.id then [] else
        ["Node at index " ++ toString i ++ " missing required \x27id\x27 field"]) ++
     (if n.position.isSome then [] else
        ["Node at index " ++ toString i ++ " missing required \x27position\x27 field"])) ++
    nodeErrors (i + 1) ns

/-- Per-edge messages of `validateDesignData`, with the running index. -/
def edgeErrors (i : ℕ) : List ValEdge → List String
  | [] => []
  | e :: es =>
    ((if strPresent e.id then [] else
        ["Edge at index " ++ toString i ++ " missing required \x27id\x27 field"]) ++
     (if strPresent e.source then [] else
        ["Edge at index " ++ toString i ++ " missing required \x27source\x27 field"]) ++
     (if strPresent e.target then [] else
        ["Edge at index " ++ toString i ++ " missing required \x27target\x27 field"])) ++
    edgeErrors (i + 1) es

/-- Result of `validateDesignData`. -/
structure ValidationResult where
  isValid : Bool
  errors : List String
deriving DecidableEq, Repr

/-- `validateDesignData(designData)`: a falsy document yields the single
message Design data is required; otherwise the nodes field contributes one
message when present but not an array, else its per-node messages, then the
edges field likewise; `isValid` is `errors.length === 0`. Violations are
collected, never thrown. -/
def validateDesignData : Option ValDoc → ValidationResult
  | none => { isValid := false, errors := ["Design data is required"] }
  | some d =>
    let errs :=
      (match d.nodes with
       | JField.absent => []
       | JField.notArr => ["Nodes must be an array"]
       | JField.arr ns => nodeErrors 0 ns) ++
      (match d.edges with
       | JField.absent => []
       | JField.notArr => ["Edges must be an array"]
       | JField.arr es => edgeErrors 0 es)
    { isValid := errs.length = 0, errors := errs }

/-- A plain graph of nodes and edges (the `StoreState` slice of the legacy
store in which `deleteNode` is declared). -/
structure Graph where
  nodes : List CanvasNode
  edges : List CanvasEdge
deriving DecidableEq, Repr

/-- Modelled from the spec: the implementation of the `deleteNode(id)`
store action is not among the sources (only its declaration in
`StoreActions` is); per the spec it removes the element and must
cascade-delete every edge referencing it as source or target. -/
def deleteNode (id : String) (g : Graph) : Graph :=
  { nodes := g.nodes.filter (fun n => !(n.id = id))
    edges := g.edges.filter (fun e => !(e.source = id) && !(e.target = id)) }

/-- A default simulation state (the store initial value). -/
def initSimulation : SimulationState :=
  { isRunning := false, currentTime := 0, speed := 1, progress := 0
    duration := 300, events := [] }

/-- A store with no nodes at all. -/
def emptyStore : ArchitectState :=
  { nodes := [], edges := [], simulation := initSimulation }

/-- A node with the given id at the origin. -/
def mkNode (id : String) : CanvasNode :=
  { id := id, position := (0, 0) }

/-- A store holding nodes a and b and no edges. -/
def abStore : ArchitectState :=
  { nodes := [mkNode "a", mkNode "b"], edges := [], simulation := initSimulation }

/-- C1 counterexample input: the claim predicts a silent no-op when an
endpoint id names no node, and `data.protocol = "HTTP"` on the new edge;
the code appends the edge in both situations and never writes a `data`
record at all. -/
theorem C1_counterexample :
    (onConnect 0 ⟨"a", "b", none, none⟩ emptyStore).edges ≠ emptyStore.edges ∧
    ((onConnect 0 ⟨"a", "b", none, none⟩ abStore).edges.getLast?.map
      CanvasEdge.data) = some none := by
  refine ⟨?_, rfl⟩
  decide

/-- C1 (amended): every `onConnect` call appends exactly one new edge whose
source and target are the given ids and which carries no `data` record (so
neither `data.protocol` nor `data.status` is set), leaves all earlier edges
and every node in place, and does so whether or not the endpoint ids name
existing nodes. -/
theorem C1_connect_always_appends (now : ℤ) (c : Connection) (st : ArchitectState) :
    (onConnect now c st).edges.length = st.edges.length + 1 ∧
    (onConnect now c st).edges.take st.edges.length = st.edges ∧
    (∃ e, (onConnect now c st).edges.getLast? = some e ∧
      e.source = c.source ∧ e.target = c.target ∧ e.data = none) ∧
    (onConnect now c st).nodes = st.nodes := by
  refine ⟨by simp [onConnect], ?_, ?_, rfl⟩
  · show (st.edges ++ [_]).take st.edges.length = st.edges
    exact List.take_left st.edges _
  · exact ⟨{ id := "edge-" ++ toString now, source := c.source, target := c.target
             sourceHandle := c.sourceHandle, targetHandle := c.targetHandle
             type := some "architech", animated := false },
      by simp [onConnect], rfl, rfl, rfl⟩

/-- C2: deleting a node removes it and leaves no edge whose source or
target is that node (cascade delete). -/
theorem C2_deleteNode_cascades (g : Graph) (n : String)
    (h : n ∈ g.nodes.map CanvasNode.id) :
    (∀ e ∈ (deleteNode n g).edges, e.source ≠ n ∧ e.target ≠ n) ∧
    n ∉ (deleteNode n g).nodes.map CanvasNode.id := by
  constructor
  · intro e he
    have := (List.mem_filter.mp he).2
    simp only [Bool.and_eq_true, Bool.not_eq_true', decide_eq_false_iff_not] at this
    exact this
  · intro hmem
    rcases List.mem_map.mp hmem with ⟨node, hnode, hid⟩
    have := (List.mem_filter.mp hnode).2
    simp only [Bool.not_eq_true', decide_eq_false_iff_not] at this
    exact this hid

/-- C2 witness: a concrete graph with node a and both an outgoing and an
incoming edge of a. -/
theorem C2_deleteNode_cascades_witness :
    (∀ e ∈ (deleteNode "a"
        ⟨[mkNode "a", mkNode "b"],
         [{ id := "e1", source := "a", target := "b" },
          { id := "e2", source := "b", target := "a" }]⟩).edges,
      e.source ≠ "a" ∧ e.target ≠ "a") ∧
    "a" ∉ (deleteNode "a"
        ⟨[mkNode "a", mkNode "b"],
         [{ id := "e1", source := "a", target := "b" },
          { id := "e2", source := "b", target := "a" }]⟩).nodes.map CanvasNode.id :=
  C2_deleteNode_cascades _ "a" (by decide)

/-- Auto layout preserves the node-list length. -/
theorem autoLayoutGo_length (i : ℕ) (ns : List CanvasNode) :
    (autoLayoutGo i ns).length = ns.length := by
  induction ns generalizing i with
  | nil => rfl
  | cons n ns ih => simp [autoLayoutGo, ih]

/-- The node at index j of the laid-out list is the original node moved to
the grid cell of absolute index i + j. -/
theorem autoLayoutGo_get? (ns : List CanvasNode) (i j : ℕ) :
    (autoLayoutGo i ns).get? j =
      (ns.get? j).map (fun n => { n with position := gridPosition (i + j) }) := by
  induction ns generalizing i j with
  | nil => simp [autoLayoutGo]
  | cons n ns ih =>
    cases j with
    | zero => simp [autoLayoutGo]
    | succ j =>
      simp only [autoLayoutGo, List.get?_cons_succ, ih (i + 1) j]
      have : i + 1 + j = i + (j + 1) := by omega
      rw [this]

/-- Re-laying-out an already laid-out list changes nothing: every position
is overwritten with the same grid cell. -/
theorem autoLayoutGo_idem (i : ℕ) (ns : List CanvasNode) :
    autoLayoutGo i (autoLayoutGo i ns) = autoLayoutGo i ns := by
  induction ns generalizing i with
  | nil => rfl
  | cons n ns ih => simp [autoLayoutGo, ih]

/-- C8: `autoLayoutNodes` is idempotent, and the position of the node at
index i of the result is the pure 4-column row-major grid function of i. -/
theorem C8_autoLayout_idempotent (ns : List CanvasNode) :
    autoLayoutNodes (autoLayoutNodes ns) = autoLayoutNodes ns ∧
    ∀ i, i < ns.length →
      ((autoLayoutNodes ns).get? i).map CanvasNode.position = some (gridPosition i) := by
  by_cases hne : ns.length = 0
  · rw [List.length_eq_zero] at hne
    subst hne
    exact ⟨rfl, by intro i h; exact absurd h (by simp)⟩
  · have heq : autoLayoutNodes ns = autoLayoutGo 0 ns := by
      simp [autoLayoutNodes, hne]
    constructor
    · have hlen : (autoLayoutGo 0 ns).length ≠ 0 := by
        rw [autoLayoutGo_length]; exact hne
      rw [heq]
      simp only [autoLayoutNodes, hlen, if_false, autoLayoutGo_idem]
    · intro i h
      rw [heq, autoLayoutGo_get? ns 0 i, List.get?_eq_get h]
      simp

/-- C8 witness: idempotence and the grid position at index 1 on a concrete
two-node list. -/
theorem C8_autoLayout_idempotent_witness :
    autoLayoutNodes (autoLayoutNodes [mkNode "a", mkNode "b"]) =
      autoLayoutNodes [mkNode "a", mkNode "b"] ∧
    ((autoLayoutNodes [mkNode "a", mkNode "b"]).get? 1).map CanvasNode.position =
      some (gridPosition 1) :=
  ⟨(C8_autoLayout_idempotent [mkNode "a", mkNode "b"]).1,
   (C8_autoLayout_idempotent [mkNode "a", mkNode "b"]).2 1 (by decide)⟩

/-- Mapping a function that fixes every element of a list is the identity. -/
theorem map_fixes_eq_self {α : Type} (l : List α) (f : α → α)
    (h : ∀ a ∈ l, f a = a) : l.map f = l := by
  conv_rhs => rw [← List.map_id l]
  exact List.map_congr_left h

/-- C9 counterexample store: one node whose data record has no
`properties` key. -/
def C9store : ArchitectState :=
  { nodes := [{ id := "n", position := (0, 0) }]
    edges := [], simulation := initSimulation }

/-- C9 counterexample: the claim predicts a complete no-op when the
property id is not found, but on a node whose data has no `properties`
array the code installs an empty one, so the store state changes. -/
theorem C9_counterexample :
    updateNodeProperty "n" "p" (PVal.bool true) C9store ≠ C9store := by
  decide

/-- The per-property rewrite of `updateNodeProperty`. -/
def propRewrite (pid : String) (v : PVal) (p : ComponentProperty) : ComponentProperty :=
  if p.id = pid then { p with value := v } else p

/-- C9 (amended): `updateNodeProperty` leaves edges, node statuses,
simulation state and selection unchanged, preserves the node id list, and
passes every node with a different id through unchanged. In a node with
the given id it only rewrites the `properties` list: the entry whose id is
`propertyId` gets `value` replaced (all its other fields kept), every other
entry is untouched. When the node id names no node the whole store is
unchanged, and likewise when every node carrying the id has a properties
list in which the property id is not found; but a matching node whose data
has no `properties` key gains an empty properties list. -/
theorem C9_updateNodeProperty_frame (st : ArchitectState)
    (nodeId pid : String) (v : PVal) :
    (updateNodeProperty nodeId pid v st).edges = st.edges ∧
    (updateNodeProperty nodeId pid v st).nodeStatuses = st.nodeStatuses ∧
    (updateNodeProperty nodeId pid v st).simulation = st.simulation ∧
    (updateNodeProperty nodeId pid v st).selectedNodeId = st.selectedNodeId ∧
    (updateNodeProperty nodeId pid v st).nodes.map CanvasNode.id =
      st.nodes.map CanvasNode.id ∧
    (∀ i node, st.nodes.get? i = some node → node.id ≠ nodeId →
      (updateNodeProperty nodeId pid v st).nodes.get? i = some node) ∧
    (∀ i node ps, st.nodes.get? i = some node → node.id = nodeId →
      node.data.properties = some ps →
      ∃ ps2,
        (updateNodeProperty nodeId pid v st).nodes.get? i =
          some { node with data := { node.data with properties := some ps2 } } ∧
        ps2.length = ps.length ∧
        (∀ j p, ps.get? j = some p → p.id ≠ pid → ps2.get? j = some p) ∧
        (∀ j p, ps.get? j = some p → p.id = pid →
          ps2.get? j = some { p with value := v })) ∧
    (nodeId ∉ st.nodes.map CanvasNode.id → updateNodeProperty nodeId pid v st = st) ∧
    ((∀ node ∈ st.nodes, node.id = nodeId →
        ∃ ps, node.data.properties = some ps ∧ pid ∉ ps.map ComponentProperty.id) →
      updateNodeProperty nodeId pid v st = st) := by
  refine ⟨rfl, rfl, rfl, rfl, ?_, ?_, ?_, ?_, ?_⟩
  · show (st.nodes.map _).map CanvasNode.id = st.nodes.map CanvasNode.id
    rw [List.map_map]
    apply List.map_congr_left
    intro node _
    by_cases h : node.id = nodeId <;> simp [h]
  · intro i node hget hne
    show (st.nodes.map _).get? i = some node
    rw [List.get?_map, hget]
    simp [hne]
  · intro i node ps hget hid hps
    refine ⟨ps.map (propRewrite pid v), ?_, by simp, ?_, ?_⟩
    · show (st.nodes.map _).get? i = _
      rw [List.get?_map, hget]
      simp [hid, hps, propRewrite]
    · intro j p hpj hne
      rw [List.get?_map, hpj]
      simp [propRewrite, hne]
    · intro j p hpj hideq
      rw [List.get?_map, hpj]
      simp [propRewrite, hideq]
  · intro hno
    have hnodes : (updateNodeProperty nodeId pid v st).nodes = st.nodes := by
      show st.nodes.map _ = st.nodes
      apply map_fixes_eq_self
      intro node hmem
      have hne : node.id ≠ nodeId := by
        intro heq
        exact hno (heq ▸ List.mem_map_of_mem CanvasNode.id hmem)
      simp [hne]
    cases st
    simpa [updateNodeProperty] using hnodes
  · intro hall
    have hnodes : (updateNodeProperty nodeId pid v st).nodes = st.nodes := by
      show st.nodes.map _ = st.nodes
      apply map_fixes_eq_self
      intro node hmem
      by_cases h : node.id = nodeId
      · rcases hall node hmem h with ⟨ps, hps, hpid⟩
        have hmap :
            ps.map (fun p => if p.id = pid then { p with value := v } else p) = ps := by
          apply map_fixes_eq_self
          intro p hp
          have hne : p.id ≠ pid := by
            intro heq
            exact hpid (heq ▸ List.mem_map_of_mem ComponentProperty.id hp)
          simp [hne]
        obtain ⟨nid, ntype, npos, ⟨dl, dn, dd, ds, dprops, de⟩, nst, ncl, nh, nsel, ndr⟩ := node
        dsimp only at hps h ⊢
        subst hps
        simp [h, hmap]
      · simp [h]
    cases st
    simpa [updateNodeProperty] using hnodes

/-- Properties of the first node of the C9 witness store. -/
def C9props : List ComponentProperty :=
  [{ id := "p1", name := "P1", ptype := "string", value := PVal.str "x" },
   { id := "p2", name := "P2", ptype := "number", value := PVal.num 3 }]

/-- First node of the C9 witness store. -/
def C9n1 : CanvasNode :=
  { id := "n1", position := (0, 0), data := { properties := some C9props } }

/-- Second node of the C9 witness store. -/
def C9n2 : CanvasNode := { id := "n2", position := (1, 1) }

/-- C9 witness store: two nodes, the first carrying two properties. -/
def C9wStore : ArchitectState :=
  { nodes := [C9n1, C9n2], edges := [], simulation := initSimulation }

/-- C9 witness: instantiates the frame theorem at the concrete store and
discharges its per-index hypotheses there. -/
theorem C9_updateNodeProperty_frame_witness :
    (updateNodeProperty "n1" "p1" (PVal.str "y") C9wStore).nodes.get? 1 = some C9n2 ∧
    (∃ ps2,
      (updateNodeProperty "n1" "p1" (PVal.str "y") C9wStore).nodes.get? 0 =
        some { C9n1 with data := { C9n1.data with properties := some ps2 } } ∧
      ps2.length = (C9n1.data.properties.getD []).length ∧
      (∀ j p, (C9n1.data.properties.getD []).get? j = some p →
        p.id ≠ "p1" → ps2.get? j = some p) ∧
      (∀ j p, (C9n1.data.properties.getD []).get? j = some p →
        p.id = "p1" → ps2.get? j = some { p with value := PVal.str "y" })) := by
  have h := C9_updateNodeProperty_frame C9wStore "n1" "p1" (PVal.str "y")
  refine ⟨h.2.2.2.2.2.1 1 C9n2 (by decide) (by decide), ?_⟩
  rcases h.2.2.2.2.2.2.1 0 C9n1 (C9n1.data.properties.getD [])
      (by decide) (by decide) (by decide) with ⟨ps2, h1, h2, h3, h4⟩
  exact ⟨ps2, h1, h2, h3, h4⟩

/-- Applying a node change found for a node id keeps that id. -/
theorem applyNodeChange_id (changes : List NodeChange) (node : CanvasNode)
    (c : NodeChange) (h : changes.find? (fun ch => ch.id = some node.id) = some c) :
    (applyNodeChange c node).id = node.id := by
  have := List.find?_some h
  simp only [decide_eq_true_eq] at this
  simp [applyNodeChange, this]

/-- Applying an edge change found for an edge id keeps that id. -/
theorem applyEdgeChange_id (changes : List EdgeChange) (edge : CanvasEdge)
    (c : EdgeChange) (h : changes.find? (fun ch => ch.id = some edge.id) = some c) :
    (applyEdgeChange c edge).id = edge.id := by
  have := List.find?_some h
  simp only [decide_eq_true_eq] at this
  simp [applyEdgeChange, this]

/-- C10: `onNodesChange` and `onEdgesChange` preserve the element id list
(so also its multiset and order — nothing is ever added or removed, in
particular removal changes do not delete store elements); an element with
no matching change passes through unchanged, an element whose id is carried
by some change is merged with the first such change object; and neither
handler touches the other array. -/
theorem C10_changes_preserve_elements (nchanges : List NodeChange)
    (echanges : List EdgeChange) (st : ArchitectState) :
    (onNodesChange nchanges st).nodes.map CanvasNode.id = st.nodes.map CanvasNode.id ∧
    (onEdgesChange echanges st).edges.map CanvasEdge.id = st.edges.map CanvasEdge.id ∧
    (∀ i node, st.nodes.get? i = some node →
      (∀ c ∈ nchanges, c.id ≠ some node.id) →
      (onNodesChange nchanges st).nodes.get? i = some node) ∧
    (∀ i edge, st.edges.get? i = some edge →
      (∀ c ∈ echanges, c.id ≠ some edge.id) →
      (onEdgesChange echanges st).edges.get? i = some edge) ∧
    (∀ i node c, st.nodes.get? i = some node →
      nchanges.find? (fun ch => ch.id = some node.id) = some c →
      (onNodesChange nchanges st).nodes.get? i = some (applyNodeChange c node)) ∧
    (∀ i edge c, st.edges.get? i = some edge →
      echanges.find? (fun ch => ch.id = some edge.id) = some c →
      (onEdgesChange echanges st).edges.get? i = some (applyEdgeChange c edge)) ∧
    (onNodesChange nchanges st).edges = st.edges ∧
    (onEdgesChange echanges st).nodes = st.nodes := by
  refine ⟨?_, ?_, ?_, ?_, ?_, ?_, rfl, rfl⟩
  · show (st.nodes.map _).map CanvasNode.id = st.nodes.map CanvasNode.id
    rw [List.map_map]
    apply List.map_congr_left
    intro node _
    cases hfind : nchanges.find? (fun ch => ch.id = some node.id) with
    | none => simp [hfind]
    | some c => simp [hfind, applyNodeChange_id nchanges node c hfind]
  · show (st.edges.map _).map CanvasEdge.id = st.edges.map CanvasEdge.id
    rw [List.map_map]
    apply List.map_congr_left
    intro edge _
    cases hfind : echanges.find? (fun ch => ch.id = some edge.id) with
    | none => simp [hfind]
    | some c => simp [hfind, applyEdgeChange_id echanges edge c hfind]
  · intro i node hget hnone
    show (st.nodes.map _).get? i = some node
    rw [List.get?_map, hget]
    have hfind : nchanges.find? (fun ch => ch.id = some node.id) = none := by
      rw [List.find?_eq_none]
      intro c hc
      simp [hnone c hc]
    simp [hfind]
  · intro i edge hget hnone
    show (st.edges.map _).get? i = some edge
    rw [List.get?_map, hget]
    have hfind : echanges.find? (fun ch => ch.id = some edge.id) = none := by
      rw [List.find?_eq_none]
      intro c hc
      simp [hnone c hc]
    simp [hfind]
  · intro i node c hget hfind
    show (st.nodes.map _).get? i = _
    rw [List.get?_map, hget]
    simp [hfind]
  · intro i edge c hget hfind
    show (st.edges.map _).get? i = _
    rw [List.get?_map, hget]
    simp [hfind]

/-- C10 witness store: nodes a and b and one edge between them. -/
def C10store : ArchitectState :=
  { nodes := [mkNode "a", mkNode "b"]
    edges := [{ id := "e1", source := "a", target := "b" }]
    simulation := initSimulation }

/-- C10 witness changes: a position change for node a. -/
def C10nchanges : List NodeChange := [{ id := some "a", position := some (5, 5) }]

/-- C10 witness changes: a selection change for an unknown edge id. -/
def C10echanges : List EdgeChange := [{ id := some "zz", selected := some true }]

/-- C10 witness: instantiates the theorem at a concrete store, discharging
the per-index hypotheses for an unmatched node and a matched node. -/
theorem C10_changes_preserve_elements_witness :
    (onNodesChange C10nchanges C10store).nodes.map CanvasNode.id =
      C10store.nodes.map CanvasNode.id ∧
    (onNodesChange C10nchanges C10store).nodes.get? 1 = some (mkNode "b") ∧
    (onNodesChange C10nchanges C10store).nodes.get? 0 =
      some (applyNodeChange { id := some "a", position := some (5, 5) } (mkNode "a")) ∧
    (onEdgesChange C10echanges C10store).edges.get? 0 =
      some { id := "e1", source := "a", target := "b" } := by
  have h := C10_changes_preserve_elements C10nchanges C10echanges C10store
  exact ⟨h.1,
    h.2.2.1 1 (mkNode "b") (by decide) (by decide),
    h.2.2.2.2.1 0 (mkNode "a") _ (by decide) (by decide),
    h.2.2.2.1 0 { id := "e1", source := "a", target := "b" } (by decide) (by decide)⟩

/-- Number of structural defects of one node per the claim: id presence and
position presence. -/
def nodeViolations (n : ValNode) : ℕ :=
  (if strPresent n.id then 0 else 1) + (if n.position.isSome then 0 else 1)

/-- Number of structural defects of one edge per the claim: id, source and
target presence. -/
def edgeViolations (e : ValEdge) : ℕ :=
  (if strPresent e.id then 0 else 1) + (if strPresent e.source then 0 else 1) +
    (if strPresent e.target then 0 else 1)

/-- Number of structural violations of a document as the claim enumerates
them: one for a null document; one when nodes (edges) is present but not an
array, else the per-element defects. -/
def violationCount : Option ValDoc → ℕ
  | none => 1
  | some d =>
    (match d.nodes with
     | JField.absent => 0
     | JField.notArr => 1
     | JField.arr ns => (ns.map nodeViolations).sum) +
    (match d.edges with
     | JField.absent => 0
     | JField.notArr => 1
     | JField.arr es => (es.map edgeViolations).sum)

/-- The node messages number exactly the node defects. -/
theorem nodeErrors_length (ns : List ValNode) :
    ∀ i, (nodeErrors i ns).length = (ns.map nodeViolations).sum := by
  induction ns with
  | nil => intro i; rfl
  | cons n ns ih =>
    intro i
    cases h1 : strPresent n.id <;> cases h2 : n.position.isSome <;>
      simp [nodeErrors, nodeViolations, h1, h2, ih (i + 1)] <;> omega

/-- The edge messages number exactly the edge defects. -/
theorem edgeErrors_length (es : List ValEdge) :
    ∀ i, (edgeErrors i es).length = (es.map edgeViolations).sum := by
  induction es with
  | nil => intro i; rfl
  | cons e es ih =>
    intro i
    cases h1 : strPresent e.id <;> cases h2 : strPresent e.source <;>
      cases h3 : strPresent e.target <;>
      simp [edgeErrors, edgeViolations, h1, h2, h3, ih (i + 1), Nat.add_assoc] <;>
      omega

/-- C7 example document with three independent defects: its one node has
neither id nor position, and its one edge has no target. -/
def C7doc : ValDoc :=
  { nodes := JField.arr [{}]
    edges := JField.arr [{ id := some "e", source := some "s" }] }

/-- C7: the validator collects all structural violations: for every
document, `isValid` holds exactly when the error list is empty, and the
number of error messages equals the number of defects among the enumerated
checks (null document, nodes/edges array-typing, per-node id and position
presence, per-edge id, source and target presence); on a concrete document
with three independent defects it returns at least three pairwise distinct
messages. -/
theorem C7_validate_collects_all :
    (∀ doc, ((validateDesignData doc).isValid = true ↔
        (validateDesignData doc).errors = []) ∧
      (validateDesignData doc).errors.length = violationCount doc) ∧
    3 ≤ (validateDesignData (some C7doc)).errors.length ∧
    (validateDesignData (some C7doc)).errors.Nodup := by
  refine ⟨?_, by decide, by decide⟩
  intro doc
  cases doc with
  | none => exact ⟨by simp [validateDesignData], rfl⟩
  | some d =>
    constructor
    · simp only [validateDesignData, decide_eq_true_eq]
      rw [List.length_eq_zero]
    · show (_ ++ _ : List String).length = _
      rw [List.length_append]
      rcases d with ⟨nf, ef⟩
      congr 1
      · cases nf <;> simp [violationCount, nodeErrors_length]
      · cases ef <;> simp [violationCount, edgeErrors_length]

/-- Unfolding lemma: looking up in a record with head entry x. -/
theorem recordGet_cons {α : Type} (x : String × α) (xs : List (String × α)) (k : String) :
    recordGet (x :: xs) k = if x.1 = k then some x.2 else recordGet xs k := by
  simp only [recordGet, List.find?]
  by_cases hx : x.1 = k
  · simp [hx]
  · simp [hx]

/-- Looking up a key other than the rewritten one ignores the rewrite. -/
theorem recordGet_map_rewrite {α : Type} (k k2 : String) (v : α) (h : k2 ≠ k) :
    ∀ r : List (String × α),
      recordGet (r.map (fun p => if p.1 = k then (k, v) else p)) k2 = recordGet r k2 := by
  intro r
  induction r with
  | nil => rfl
  | cons x xs ih =>
    by_cases hx : x.1 = k
    · simp only [List.map_cons, if_pos hx, recordGet_cons]
      rw [if_neg (Ne.symm h), if_neg (fun hk2 => h (hx.symm.trans hk2).symm)]
      exact ih
    · simp only [List.map_cons, if_neg hx, recordGet_cons]
      by_cases hx2 : x.1 = k2
      · simp [hx2]
      · rw [if_neg hx2, if_neg hx2]
        exact ih

/-- Looking up a key in a record with one foreign entry appended ignores
the appended entry. -/
theorem recordGet_append_single {α : Type} (k k2 : String) (v : α) (h : k2 ≠ k) :
    ∀ r : List (String × α), recordGet (r ++ [(k, v)]) k2 = recordGet r k2 := by
  intro r
  induction r with
  | nil => simp [recordGet_cons, Ne.symm h, recordGet]
  | cons x xs ih =>
    simp only [List.cons_append, recordGet_cons]
    by_cases hx2 : x.1 = k2
    · simp [hx2]
    · rw [if_neg hx2, if_neg hx2]
      exact ih

/-- Setting a key then reading another key reads the original record. -/
theorem recordGet_recordSet_other {α : Type} (k k2 : String) (v : α)
    (h : k2 ≠ k) (r : List (String × α)) :
    recordGet (recordSet r k v) k2 = recordGet r k2 := by
  rw [recordSet]
  split
  · exact recordGet_map_rewrite k k2 v h r
  · exact recordGet_append_single k k2 v h r

/-- A record with no entry for a key looks that key up as `none`. -/
theorem recordGet_of_not_any {α : Type} (k : String) :
    ∀ r : List (String × α), ¬r.any (fun p => p.1 = k) = true → recordGet r k = none := by
  intro r
  induction r with
  | nil => intro _; rfl
  | cons x xs ih =>
    intro h
    simp only [List.any_cons, Bool.or_eq_true, decide_eq_true_eq, not_or] at h
    rw [recordGet_cons, if_neg h.1]
    exact ih (by simp [h.2])

/-- Setting a key then reading it back gives the new value. -/
theorem recordGet_recordSet_same {α : Type} (k : String) (v : α)
    (r : List (String × α)) : recordGet (recordSet r k v) k = some v := by
  rw [recordSet]
  split
  case isTrue hany =>
    induction r with
    | nil => simp at hany
    | cons x xs ih =>
      by_cases hx : x.1 = k
      · simp [List.map_cons, if_pos hx, recordGet_cons]
      · simp only [List.any_cons, Bool.or_eq_true, decide_eq_true_eq, hx,
          false_or] at hany
        simp only [List.map_cons, if_neg hx, recordGet_cons]
        exact ih hany
  case isFalse hany =>
    induction r with
    | nil => simp [recordGet_cons, recordGet]
    | cons x xs ih =>
      have hx : ¬x.1 = k := by
        intro hx
        exact hany (by simp [List.any_cons, hx])
      simp only [List.cons_append, recordGet_cons]
      rw [if_neg hx]
      exact ih (fun hh => hany (by simp [List.any_cons] at hh ⊢; tauto))

/-- Folding property insertions whose keys all differ from k leaves the
value at k unchanged. -/
theorem flatten_foldl_untouched (k : String) :
    ∀ (ps : List ComponentProperty) (acc : List (String × PVal)),
      (∀ p ∈ ps, propKey p ≠ k) →
      recordGet (ps.foldl (fun acc p => recordSet acc (propKey p) p.value) acc) k =
        recordGet acc k := by
  intro ps
  induction ps with
  | nil => intro acc _; rfl
  | cons q ps ih =>
    intro acc h
    simp only [List.foldl_cons]
    rw [ih _ (fun p hp => h p (List.mem_cons_of_mem q hp)),
      recordGet_recordSet_other _ _ _ (fun heq => h q (List.mem_cons_self q ps) heq.symm) _]

/-- In the flattened property record, every property with a nonempty id
(all ids pairwise distinct) is found under its id with its value. -/
theorem flattenProperties_lookup :
    ∀ (ps : List ComponentProperty) (acc : List (String × PVal)),
      (∀ p ∈ ps, p.id ≠ "") → (ps.map ComponentProperty.id).Nodup →
      ∀ p ∈ ps,
        recordGet (ps.foldl (fun acc p => recordSet acc (propKey p) p.value) acc) p.id =
          some p.value := by
  intro ps
  induction ps with
  | nil => intro acc _ _ p hp; simp at hp
  | cons q ps ih =>
    intro acc hne hnd p hp
    simp only [List.map_cons, List.nodup_cons] at hnd
    rcases List.mem_cons.mp hp with rfl | hmem
    · simp only [List.foldl_cons]
      have hk : propKey p = p.id := by
        rw [propKey, if_neg (hne p (List.mem_cons_self p ps))]
      rw [flatten_foldl_untouched p.id ps _ ?_, hk, recordGet_recordSet_same]
      intro r hr heq
      have hkr : propKey r = r.id := by
        rw [propKey, if_neg (hne r (List.mem_cons_of_mem p hr))]
      rw [hkr] at heq
      exact hnd.1 (heq ▸ List.mem_map_of_mem ComponentProperty.id hr)
    · simp only [List.foldl_cons]
      exact ih _ (fun r hr => hne r (List.mem_cons_of_mem q hr)) hnd.2 p hmem

/-- The serializer followed by the deserializer on the versioned path. -/
def roundTripDesign (nodes : List CanvasNode) (edges : List CanvasEdge)
    (viewport : Viewport) (nowIso : String) : DeserializedDesign :=
  deserializeDesign (DesignData.current (serializeDesign nodes edges viewport nowIso))

/-- C6: round-trip serialization. For a graph without transient
selected/dragging state (and well-formed per-node property ids: nonempty
and pairwise distinct, the spec invariant), deserializing the serialized
document reproduces the node ids, edge ids and node positions in order,
and the flat property record of each round-tripped node yields, under each
original property id, exactly the value that property carried. Metadata
and timestamps are not constrained. -/
theorem C6_roundtrip (nodes : List CanvasNode) (edges : List CanvasEdge)
    (viewport : Viewport) (nowIso : String)
    (hsel : ∀ n ∈ nodes, n.selected = false ∧ n.dragging = false)
    (hprop : ∀ n ∈ nodes, ∀ ps, n.data.properties = some ps →
      (∀ p ∈ ps, p.id ≠ "") ∧ (ps.map ComponentProperty.id).Nodup) :
    (roundTripDesign nodes edges viewport nowIso).nodes.map SerNode.id =
      nodes.map CanvasNode.id ∧
    (roundTripDesign nodes edges viewport nowIso).edges.map SerEdge.id =
      edges.map CanvasEdge.id ∧
    (roundTripDesign nodes edges viewport nowIso).nodes.map SerNode.position =
      nodes.map CanvasNode.position ∧
    ∀ i node ps p, nodes.get? i = some node → node.data.properties = some ps →
      p ∈ ps →
      ((roundTripDesign nodes edges viewport nowIso).nodes.get? i).map
          (fun sn => recordGet sn.data.properties p.id) = some (some p.value) := by
  refine ⟨?_, ?_, ?_, ?_⟩
  · show (nodes.map serializeNode).map SerNode.id = nodes.map CanvasNode.id
    rw [List.map_map]
    exact List.map_congr_left (fun n _ => rfl)
  · show (edges.map serializeEdge).map SerEdge.id = edges.map CanvasEdge.id
    rw [List.map_map]
    exact List.map_congr_left (fun e _ => rfl)
  · show (nodes.map serializeNode).map SerNode.position = nodes.map CanvasNode.position
    rw [List.map_map]
    exact List.map_congr_left (fun n _ => rfl)
  · intro i node ps p hget hps hp
    have hmem : node ∈ nodes := by
      exact List.get?_mem hget
    rcases hprop node hmem ps hps with ⟨hne, hnd⟩
    show ((nodes.map serializeNode).get? i).map _ = _
    rw [List.get?_map, hget]
    show some (recordGet (serializeNode node).data.properties p.id) = some (some p.value)
    congr 1
    have hdata : (serializeNode node).data.properties = flattenProperties ps := by
      simp [serializeNode, hps]
    rw [hdata, flattenProperties]
    exact flattenProperties_lookup ps [] hne hnd p hp

/-- The single property list of the C6 witness node. -/
def C6props : List ComponentProperty :=
  [{ id := "name", name := "Name", ptype := "string", value := PVal.str "Svc" }]

/-- The C6 witness node. -/
def C6node : CanvasNode :=
  { id := "n1", position := (3, 4), data := { properties := some C6props } }

/-- C6 witness: instantiates the round-trip theorem on a one-node graph,
discharging the transient-state and property-id hypotheses there. -/
theorem C6_roundtrip_witness :
    (roundTripDesign [C6node] [] ⟨0, 0, 1⟩ "t").nodes.map SerNode.id =
      [C6node].map CanvasNode.id ∧
    ((roundTripDesign [C6node] [] ⟨0, 0, 1⟩ "t").nodes.get? 0).map
      (fun sn => recordGet sn.data.properties "name") =
        some (some (PVal.str "Svc")) := by
  have h := C6_roundtrip [C6node] [] ⟨0, 0, 1⟩ "t"
    (by decide)
    (by
      intro n hn ps hps
      rw [List.mem_singleton] at hn
      subst hn
      have hps2 : C6node.data.properties = some C6props := rfl
      rw [hps] at hps2
      have : ps = C6props := Option.some_inj.mp hps2
      subst this
      exact ⟨by decide, by decide⟩)
  refine ⟨h.1, ?_⟩
  have h4 := h.2.2.2 0 C6node C6props
    { id := "name", name := "Name", ptype := "string", value := PVal.str "Svc" }
    (by rfl) (by rfl) (by decide)
  exact h4

/-- One engine node step never touches nodes, edges, or the simulation
clock fields; it only writes `nodeStatuses` and possibly appends events. -/
theorem simNodeStep_frame (f : ℕ → ℚ) (now : ℤ) (t : ℚ)
    (acc : ArchitectState × ℕ) (node : CanvasNode) :
    (simNodeStep f now t acc node).1.nodes = acc.1.nodes ∧
    (simNodeStep f now t acc node).1.edges = acc.1.edges ∧
    (simNodeStep f now t acc node).1.simulation.currentTime =
      acc.1.simulation.currentTime ∧
    (simNodeStep f now t acc node).1.simulation.speed = acc.1.simulation.speed ∧
    (simNodeStep f now t acc node).1.simulation.duration =
      acc.1.simulation.duration ∧
    (simNodeStep f now t acc node).1.simulation.isRunning =
      acc.1.simulation.isRunning ∧
    (simNodeStep f now t acc node).1.simulation.progress =
      acc.1.simulation.progress := by
  rw [simNodeStep]
  by_cases h : nodeStatusOfRand (f acc.2) = StatusKind.error ∨
      nodeStatusOfRand (f acc.2) = StatusKind.warning
  · simp [h, updateNodeStatus, addSimulationEvent]
  · simp [h, updateNodeStatus]

/-- The whole engine node phase never touches nodes, edges, or the
simulation clock fields. -/
theorem foldl_simNodeStep_frame (f : ℕ → ℚ) (now : ℤ) (t : ℚ) :
    ∀ (ns : List CanvasNode) (acc : ArchitectState × ℕ),
      (ns.foldl (simNodeStep f now t) acc).1.nodes = acc.1.nodes ∧
      (ns.foldl (simNodeStep f now t) acc).1.edges = acc.1.edges ∧
      (ns.foldl (simNodeStep f now t) acc).1.simulation.currentTime =
        acc.1.simulation.currentTime ∧
      (ns.foldl (simNodeStep f now t) acc).1.simulation.speed =
        acc.1.simulation.speed ∧
      (ns.foldl (simNodeStep f now t) acc).1.simulation.duration =
        acc.1.simulation.duration ∧
      (ns.foldl (simNodeStep f now t) acc).1.simulation.isRunning =
        acc.1.simulation.isRunning ∧
      (ns.foldl (simNodeStep f now t) acc).1.simulation.progress =
        acc.1.simulation.progress := by
  intro ns
  induction ns with
  | nil => intro acc; exact ⟨rfl, rfl, rfl, rfl, rfl, rfl, rfl⟩
  | cons n ns ih =>
    intro acc
    rw [List.foldl_cons]
    have h1 := ih (simNodeStep f now t acc n)
    have h2 := simNodeStep_frame f now t acc n
    exact ⟨h1.1.trans h2.1, h1.2.1.trans h2.2.1,
      h1.2.2.1.trans h2.2.2.1, h1.2.2.2.1.trans h2.2.2.2.1,
      h1.2.2.2.2.1.trans h2.2.2.2.2.1,
      h1.2.2.2.2.2.1.trans h2.2.2.2.2.2.1,
      h1.2.2.2.2.2.2.trans h2.2.2.2.2.2.2⟩

/-- C4: one tick keeps the simulation clock inside [0, duration]: when
`currentTime + speed` stays below `duration` the clock advances by exactly
`speed`; when it would reach or exceed `duration` the tick performs no
state change at all (same store state, same random counter); and in both
situations the clock stays within the interval. -/
theorem C4_currentTime_bounded (now : ℤ) (f : ℕ → ℚ) (st : ArchitectState) (k : ℕ)
    (h0 : 0 ≤ st.simulation.currentTime)
    (hd : st.simulation.currentTime ≤ st.simulation.duration)
    (hs : 0 < st.simulation.speed) :
    (st.simulation.currentTime + st.simulation.speed < st.simulation.duration →
      (simulationTick now f st k).1.simulation.currentTime =
        st.simulation.currentTime + st.simulation.speed) ∧
    (st.simulation.duration ≤ st.simulation.currentTime + st.simulation.speed →
      simulationTick now f st k = (st, k)) ∧
    0 ≤ (simulationTick now f st k).1.simulation.currentTime ∧
    (simulationTick now f st k).1.simulation.currentTime ≤
      st.simulation.duration := by
  by_cases hfreeze : st.simulation.duration ≤
      st.simulation.currentTime + st.simulation.speed
  · have heq : simulationTick now f st k = (st, k) := by
      rw [simulationTick, if_pos hfreeze]
    refine ⟨fun hlt => absurd hfreeze (not_le.mpr hlt), fun _ => heq, ?_, ?_⟩
    · rw [heq]; exact h0
    · rw [heq]; exact hd
  · have hlt : st.simulation.currentTime + st.simulation.speed <
        st.simulation.duration := not_le.mp hfreeze
    have hct : (simulationTick now f st k).1.simulation.currentTime =
        st.simulation.currentTime + st.simulation.speed := by
      rw [simulationTick, if_neg hfreeze]
      exact (foldl_simNodeStep_frame f now _ _ _).2.2.1
    refine ⟨fun _ => hct, fun hge => absurd hge hfreeze, ?_, ?_⟩
    · rw [hct]
      exact add_nonneg h0 (le_of_lt hs)
    · rw [hct]
      exact le_of_lt hlt

/-- C4 witness store: a fresh running simulation. -/
def C4store : ArchitectState :=
  { nodes := [], edges := []
    simulation := { initSimulation with isRunning := true } }

/-- C4 witness: instantiates the bound theorem at a concrete running store
and discharges its hypotheses there. -/
theorem C4_currentTime_bounded_witness :
    ((C4store.simulation.currentTime + C4store.simulation.speed <
        C4store.simulation.duration →
      (simulationTick 0 (fun _ => 0) C4store 0).1.simulation.currentTime =
        C4store.simulation.currentTime + C4store.simulation.speed) ∧
    (C4store.simulation.duration ≤
        C4store.simulation.currentTime + C4store.simulation.speed →
      simulationTick 0 (fun _ => 0) C4store 0 = (C4store, 0)) ∧
    0 ≤ (simulationTick 0 (fun _ => 0) C4store 0).1.simulation.currentTime ∧
    (simulationTick 0 (fun _ => 0) C4store 0).1.simulation.currentTime ≤
      C4store.simulation.duration) :=
  C4_currentTime_bounded 0 (fun _ => 0) C4store 0
    (by decide) (by decide) (by decide)

/-- The claim's status mapping by cumulative thresholds: active below 0.60,
idle below 0.85, warning below 0.95, else error. -/
def claimStatusOf (r : ℚ) : StatusKind :=
  if r < 0.60 then StatusKind.active
  else if r < 0.85 then StatusKind.idle
  else if r < 0.95 then StatusKind.warning
  else StatusKind.error

/-- The claim's thresholds and the code's thresholds agree. -/
theorem claimStatusOf_eq (r : ℚ) : claimStatusOf r = nodeStatusOfRand r := by
  have h : (0.60 : ℚ) = 0.6 := by norm_num
  rw [claimStatusOf, nodeStatusOfRand, h]

/-- The simulation event the engine appends for a warning/error node. -/
def tickEvent (now : ℤ) (t : ℚ) (node : CanvasNode) (s : StatusKind) :
    SimulationEvent :=
  { id := "event-" ++ toString now
    time := t
    etype := if s = StatusKind.error then EventType.error else EventType.warning
    componentId := some node.id
    message := nodeEventMessage node s }

/-- The events the node phase appends, in node order, five draws per node. -/
def tickEvents (f : ℕ → ℚ) (now : ℤ) (t : ℚ) : List CanvasNode → ℕ → List SimulationEvent
  | [], _ => []
  | n :: ns, k =>
    (if nodeStatusOfRand (f k) = StatusKind.error ∨
        nodeStatusOfRand (f k) = StatusKind.warning
     then [tickEvent now t n (nodeStatusOfRand (f k))] else []) ++
    tickEvents f now t ns (k + 5)

/-- One node step: counter advances by five, the node's fresh status is
written, and the block of events of `tickEvents` for this node is appended. -/
theorem simNodeStep_effect (f : ℕ → ℚ) (now : ℤ) (t : ℚ)
    (acc : ArchitectState × ℕ) (node : CanvasNode) :
    (simNodeStep f now t acc node).2 = acc.2 + 5 ∧
    (simNodeStep f now t acc node).1.nodeStatuses =
      recordSet acc.1.nodeStatuses node.id (tickNodeStatus f acc.2 now) ∧
    (simNodeStep f now t acc node).1.simulation.events =
      acc.1.simulation.events ++
        (if nodeStatusOfRand (f acc.2) = StatusKind.error ∨
            nodeStatusOfRand (f acc.2) = StatusKind.warning
         then [tickEvent now t node (nodeStatusOfRand (f acc.2))] else []) := by
  by_cases h : nodeStatusOfRand (f acc.2) = StatusKind.error ∨
      nodeStatusOfRand (f acc.2) = StatusKind.warning
  · refine ⟨rfl, ?_, ?_⟩ <;>
      simp [simNodeStep, h, updateNodeStatus, addSimulationEvent, tickEvent]
  · refine ⟨rfl, ?_, ?_⟩ <;>
      simp [simNodeStep, h, updateNodeStatus]

/-- The node phase appends exactly the events of `tickEvents`. -/
theorem foldl_simNodeStep_events (f : ℕ → ℚ) (now : ℤ) (t : ℚ) :
    ∀ (ns : List CanvasNode) (st : ArchitectState) (k : ℕ),
      (ns.foldl (simNodeStep f now t) (st, k)).1.simulation.events =
        st.simulation.events ++ tickEvents f now t ns k := by
  intro ns
  induction ns with
  | nil => intro st k; simp [tickEvents]
  | cons n ns ih =>
    intro st k
    rw [List.foldl_cons]
    have hstep := simNodeStep_effect f now t (st, k) n
    rcases hp : simNodeStep f now t (st, k) n with ⟨st2, k2⟩
    rw [hp] at hstep
    dsimp only at hstep
    rw [ih st2 k2, hstep.2.2, hstep.1, tickEvents, List.append_assoc]

/-- The node phase does not touch the status entry of a key that is no
processed node's id. -/
theorem foldl_statuses_untouched (f : ℕ → ℚ) (now : ℤ) (t : ℚ) :
    ∀ (ns : List CanvasNode) (st : ArchitectState) (k : ℕ) (key : String),
      (∀ n ∈ ns, n.id ≠ key) →
      recordGet ((ns.foldl (simNodeStep f now t) (st, k)).1.nodeStatuses) key =
        recordGet st.nodeStatuses key := by
  intro ns
  induction ns with
  | nil => intro st k key _; rfl
  | cons n ns ih =>
    intro st k key h
    rw [List.foldl_cons]
    have hstep := simNodeStep_effect f now t (st, k) n
    rcases hp : simNodeStep f now t (st, k) n with ⟨st2, k2⟩
    rw [hp] at hstep
    dsimp only at hstep
    rw [ih st2 k2 key (fun m hm => h m (List.mem_cons_of_mem n hm)), hstep.2.1,
      recordGet_recordSet_other _ _ _ (fun heq => h n (List.mem_cons_self n ns) heq.symm)]

/-- After the node phase, the status entry of the node at index i is the
fresh status computed from the draw at counter k + 5 i. -/
theorem foldl_status_at (f : ℕ → ℚ) (now : ℤ) (t : ℚ) :
    ∀ (ns : List CanvasNode) (st : ArchitectState) (k : ℕ) (i : ℕ) (node : CanvasNode),
      (ns.map CanvasNode.id).Nodup → ns.get? i = some node →
      recordGet ((ns.foldl (simNodeStep f now t) (st, k)).1.nodeStatuses) node.id =
        some (tickNodeStatus f (k + 5 * i) now) := by
  intro ns
  induction ns with
  | nil => intro st k i node _ hget; simp at hget
  | cons n ns ih =>
    intro st k i node hnd hget
    simp only [List.map_cons, List.nodup_cons] at hnd
    rw [List.foldl_cons]
    have hstep := simNodeStep_effect f now t (st, k) n
    rcases hp : simNodeStep f now t (st, k) n with ⟨st2, k2⟩
    rw [hp] at hstep
    dsimp only at hstep
    cases i with
    | zero =>
      have hnode : node = n := by
        simp only [List.get?_cons_zero, Option.some_inj] at hget
        exact hget.symm
      subst hnode
      have huntouched : ∀ m ∈ ns, m.id ≠ node.id := by
        intro m hm heq
        exact hnd.1 (heq ▸ List.mem_map_of_mem CanvasNode.id hm)
      rw [foldl_statuses_untouched f now t ns st2 k2 node.id huntouched, hstep.2.1,
        recordGet_recordSet_same]
      simp
    | succ i =>
      simp only [List.get?_cons_succ] at hget
      rw [ih st2 k2 i node hnd.2 hget, hstep.1]
      congr 2
      omega

/-- Every event the node phase appends references some processed node. -/
theorem tickEvents_componentId (f : ℕ → ℚ) (now : ℤ) (t : ℚ) :
    ∀ (ns : List CanvasNode) (k : ℕ) (e : SimulationEvent),
      e ∈ tickEvents f now t ns k → ∃ n ∈ ns, e.componentId = some n.id := by
  intro ns
  induction ns with
  | nil => intro k e he; simp [tickEvents] at he
  | cons n ns ih =>
    intro k e he
    rw [tickEvents] at he
    rcases List.mem_append.mp he with hb | ht
    · refine ⟨n, List.mem_cons_self n ns, ?_⟩
      rcases Classical.em (nodeStatusOfRand (f k) = StatusKind.error ∨
          nodeStatusOfRand (f k) = StatusKind.warning) with hc | hc
      · rw [if_pos hc] at hb
        rcases List.mem_singleton.mp hb with rfl
        rfl
      · rw [if_neg hc] at hb
        simp at hb
    · rcases ih (k + 5) e ht with ⟨m, hm, hcomp⟩
      exact ⟨m, List.mem_cons_of_mem n hm, hcomp⟩

/-- Filtering the node-phase events by one node's id keeps exactly that
node's block. -/
theorem tickEvents_filter_at (f : ℕ → ℚ) (now : ℤ) (t : ℚ) :
    ∀ (ns : List CanvasNode) (k : ℕ) (i : ℕ) (node : CanvasNode),
      (ns.map CanvasNode.id).Nodup → ns.get? i = some node →
      (tickEvents f now t ns k).filter (fun e => e.componentId = some node.id) =
        (if nodeStatusOfRand (f (k + 5 * i)) = StatusKind.error ∨
            nodeStatusOfRand (f (k + 5 * i)) = StatusKind.warning
         then [tickEvent now t node (nodeStatusOfRand (f (k + 5 * i)))] else []) := by
  intro ns
  induction ns with
  | nil => intro k i node _ hget; simp at hget
  | cons n ns ih =>
    intro k i node hnd hget
    simp only [List.map_cons, List.nodup_cons] at hnd
    rw [tickEvents, List.filter_append]
    cases i with
    | zero =>
      have hnode : node = n := by
        simp only [List.get?_cons_zero, Option.some_inj] at hget
        exact hget.symm
      subst hnode
      have hrest : (tickEvents f now t ns (k + 5)).filter
          (fun e => e.componentId = some node.id) = [] := by
        rw [List.filter_eq_nil]
        intro e he
        rcases tickEvents_componentId f now t ns (k + 5) e he with ⟨m, hm, hcomp⟩
        simp only [decide_eq_true_eq, hcomp, Option.some_inj]
        intro heq
        exact hnd.1 (heq ▸ List.mem_map_of_mem CanvasNode.id hm)
      rw [hrest, List.append_nil]
      rcases Classical.em (nodeStatusOfRand (f k) = StatusKind.error ∨
          nodeStatusOfRand (f k) = StatusKind.warning) with hc | hc
      · have hc5 : nodeStatusOfRand (f (k + 5 * 0)) = StatusKind.error ∨
            nodeStatusOfRand (f (k + 5 * 0)) = StatusKind.warning := by
          simpa using hc
        rw [if_pos hc, if_pos hc5]
        simp [tickEvent]
      · have hc5 : ¬(nodeStatusOfRand (f (k + 5 * 0)) = StatusKind.error ∨
            nodeStatusOfRand (f (k + 5 * 0)) = StatusKind.warning) := by
          simpa using hc
        rw [if_neg hc, if_neg hc5]
        simp
    | succ i =>
      simp only [List.get?_cons_succ] at hget
      have hblock : (if nodeStatusOfRand (f k) = StatusKind.error ∨
            nodeStatusOfRand (f k) = StatusKind.warning
          then [tickEvent now t n (nodeStatusOfRand (f k))] else []).filter
            (fun e => e.componentId = some node.id) = [] := by
        rw [List.filter_eq_nil]
        intro e he
        rcases Classical.em (nodeStatusOfRand (f k) = StatusKind.error ∨
            nodeStatusOfRand (f k) = StatusKind.warning) with hc | hc
        · rw [if_pos hc] at he
          rcases List.mem_singleton.mp he with rfl
          simp only [tickEvent, decide_eq_true_eq, Option.some_inj]
          intro heq
          have : node.id ∈ ns.map CanvasNode.id := by
            have := List.get?_mem hget
            exact List.mem_map_of_mem CanvasNode.id this
          exact hnd.1 (heq ▸ this)
        · rw [if_neg hc] at he
          simp at he
      rw [hblock, List.nil_append, ih (k + 5) i node hnd.2 hget]
      have harith : k + 5 + 5 * i = k + 5 * (i + 1) := by omega
      rw [harith]

/-- On a non-frozen tick the resulting statuses and events are those of the
node phase run at the advanced time (the edge phase only replaces edges). -/
theorem simulationTick_advance (now : ℤ) (f : ℕ → ℚ) (st : ArchitectState) (k : ℕ)
    (h : ¬st.simulation.duration ≤ st.simulation.currentTime + st.simulation.speed) :
    (simulationTick now f st k).1.nodeStatuses =
      (st.nodes.foldl
        (simNodeStep f now (st.simulation.currentTime + st.simulation.speed))
        (setSimulationTime (st.simulation.currentTime + st.simulation.speed) st, k)).1.nodeStatuses ∧
    (simulationTick now f st k).1.simulation.events =
      (st.nodes.foldl
        (simNodeStep f now (st.simulation.currentTime + st.simulation.speed))
        (setSimulationTime (st.simulation.currentTime + st.simulation.speed) st, k)).1.simulation.events := by
  constructor <;> (rw [simulationTick]; simp only [if_neg h, setSimulationTime])

/-- C3: on a running (non-frozen) tick with pairwise distinct node ids,
the status written for the node at index i is the claim's cumulative
threshold mapping of the single draw consumed for that node, and an event
at the advanced simulated time referencing that node's id is appended if
and only if the drawn status is warning or error (the events of all other
nodes reference other ids). -/
theorem C3_tick_status_and_events (now : ℤ) (f : ℕ → ℚ) (st : ArchitectState) (k : ℕ)
    (hnd : (st.nodes.map CanvasNode.id).Nodup)
    (hrun : st.simulation.currentTime + st.simulation.speed < st.simulation.duration) :
    ∀ i node, st.nodes.get? i = some node →
      (recordGet ((simulationTick now f st k).1.nodeStatuses) node.id).map
          NodeStatus.status = some (claimStatusOf (f (k + 5 * i))) ∧
      (simulationTick now f st k).1.simulation.events.filter
          (fun e => e.componentId = some node.id) =
        st.simulation.events.filter (fun e => e.componentId = some node.id) ++
          (if claimStatusOf (f (k + 5 * i)) = StatusKind.warning ∨
              claimStatusOf (f (k + 5 * i)) = StatusKind.error
           then [tickEvent now (st.simulation.currentTime + st.simulation.speed) node
                   (claimStatusOf (f (k + 5 * i)))]
           else []) := by
  intro i node hget
  have hnle : ¬st.simulation.duration ≤
      st.simulation.currentTime + st.simulation.speed := not_le.mpr hrun
  have hadv := simulationTick_advance now f st k hnle
  constructor
  · rw [hadv.1,
      foldl_status_at f now (st.simulation.currentTime + st.simulation.speed)
        st.nodes _ k i node hnd hget]
    rw [claimStatusOf_eq]
    rfl
  · rw [hadv.2,
      foldl_simNodeStep_events f now (st.simulation.currentTime + st.simulation.speed)
        st.nodes _ k]
    rw [List.filter_append]
    have hst1 : (setSimulationTime
        (st.simulation.currentTime + st.simulation.speed) st).simulation.events =
        st.simulation.events := rfl
    rw [hst1,
      tickEvents_filter_at f now (st.simulation.currentTime + st.simulation.speed)
        st.nodes k i node hnd hget]
    rw [claimStatusOf_eq]
    by_cases hc : nodeStatusOfRand (f (k + 5 * i)) = StatusKind.error ∨
        nodeStatusOfRand (f (k + 5 * i)) = StatusKind.warning
    · rw [if_pos hc, if_pos (Or.symm hc)]
    · rw [if_neg hc, if_neg (fun hcc => hc (Or.symm hcc))]

/-- The C3 and C5 witness node. -/
def simNode : CanvasNode := { id := "n", position := (0, 0) }

/-- The C3 witness store: one node, running clock far from its duration. -/
def C3store : ArchitectState :=
  { nodes := [simNode], edges := []
    simulation := { initSimulation with isRunning := true } }

/-- C3 witness: instantiates the tick theorem at a concrete store with a
draw of 0.9 (a warning), discharging the distinctness, non-frozen and
index hypotheses there. -/
theorem C3_tick_status_and_events_witness :
    (recordGet ((simulationTick 3 (fun _ => 0.9) C3store 0).1.nodeStatuses)
        simNode.id).map NodeStatus.status = some (claimStatusOf 0.9) ∧
    (simulationTick 3 (fun _ => 0.9) C3store 0).1.simulation.events.filter
        (fun e => e.componentId = some simNode.id) =
      C3store.simulation.events.filter (fun e => e.componentId = some simNode.id) ++
        (if claimStatusOf 0.9 = StatusKind.warning ∨ claimStatusOf 0.9 = StatusKind.error
         then [tickEvent 3 (C3store.simulation.currentTime + C3store.simulation.speed)
                 simNode (claimStatusOf 0.9)]
         else []) :=
  C3_tick_status_and_events 3 (fun _ => 0.9) C3store 0 (by decide)
    (by simp [C3store, initSimulation]) 0 simNode (by decide)

/-- C5 (amended): on a running (non-frozen) tick with pairwise distinct
node ids, each node's logs list is REPLACED by a list holding exactly one
fresh entry describing the new status; entries written by earlier ticks are
discarded, not appended to. -/
theorem C5_tick_replaces_logs (now : ℤ) (f : ℕ → ℚ) (st : ArchitectState) (k : ℕ)
    (hnd : (st.nodes.map CanvasNode.id).Nodup)
    (hrun : st.simulation.currentTime + st.simulation.speed < st.simulation.duration) :
    ∀ i node, st.nodes.get? i = some node →
      (recordGet ((simulationTick now f st k).1.nodeStatuses) node.id).map
          NodeStatus.logs =
        some (some [{ timestamp := now
                      level := logLevelOf (nodeStatusOfRand (f (k + 5 * i)))
                      message := statusLogMessage (nodeStatusOfRand (f (k + 5 * i))) }]) := by
  intro i node hget
  have hadv := simulationTick_advance now f st k (not_le.mpr hrun)
  rw [hadv.1, foldl_status_at f now _ st.nodes _ k i node hnd hget]
  rfl

/-- The C5 store: its single node already carries one log entry from an
earlier tick. -/
def C5store : ArchitectState :=
  { nodes := [simNode], edges := []
    nodeStatuses := [("n", { status := StatusKind.idle
                             logs := some [{ timestamp := 0, level := LogLevel.info
                                             message := "old" }] })]
    simulation := { initSimulation with isRunning := true } }

/-- C5 counterexample: the claim predicts that after the next tick the
node's logs contain the earlier entry plus one appended entry; in fact the
logs are exactly the one fresh entry and the earlier entry is gone. -/
theorem C5_counterexample :
    (recordGet ((simulationTick 7 (fun _ => 0) C5store 0).1.nodeStatuses) "n").map
        NodeStatus.logs =
      some (some [{ timestamp := 7, level := LogLevel.info
                    message := "Active status detected" }]) ∧
    ({ timestamp := 0, level := LogLevel.info, message := "old" } : LogEntry) ∉
      [({ timestamp := 7, level := LogLevel.info
          message := "Active status detected" } : LogEntry)] := by
  constructor
  · have h := C5_tick_replaces_logs 7 (fun _ => 0) C5store 0 (by decide)
      (by simp [C5store, initSimulation]) 0 simNode rfl
    rw [show simNode.id = "n" from rfl] at h
    rw [h]
    norm_num [nodeStatusOfRand, logLevelOf, statusLogMessage]
    exact ⟨by decide, by decide⟩
  · decide

/-- C5 witness: instantiates the replaced-logs theorem at the concrete
store, discharging its hypotheses there. -/
theorem C5_tick_replaces_logs_witness :
    (recordGet ((simulationTick 7 (fun _ => 0) C5store 0).1.nodeStatuses)
        simNode.id).map NodeStatus.logs =
      some (some [{ timestamp := 7
                    level := logLevelOf (nodeStatusOfRand ((fun _ : ℕ => (0 : ℚ)) (0 + 5 * 0)))
                    message := statusLogMessage (nodeStatusOfRand ((fun _ : ℕ => (0 : ℚ)) (0 + 5 * 0))) }]) :=
  C5_tick_replaces_logs 7 (fun _ => 0) C5store 0 (by decide)
    (by simp [C5store, initSimulation]) 0 simNode rfl
